import Mathlib

/-!
Verification development for the embedded full-text search index core
(`src/src/lib.rs` and the spec of its companion modules).

The `Index` schema methods present in `src/src/lib.rs` (`documents`,
`number_of_attributes`, `number_of_documents`, `headers`, `put_headers`)
are embedded directly from the Rust source.  The companion modules
(`criterion`, `search`, `heed_codec`, `tokenizer`) are declared in
`lib.rs` but their sources are not in the repository snapshot; the
definitions that model them are marked `Modelled from the spec:` and
follow the specification text faithfully.

Conventions: byte strings are `List Nat` with entries below 256,
document ids are `Nat` (u32 values), compressed roaring bitmaps are
`Finset Nat`, and fallible Rust functions return `Except IndexError`.
-/

/-- Errors surfaced by the `Index` schema accessors, mirroring the
`anyhow` contexts attached in `src/src/lib.rs`: a missing document during
batch fetch carries the missing id, and a missing `documents-ids`
metadata entry is a distinct fatal error. -/
inductive IndexError where
  | documentNotFound (id : Nat)
  | missingDocumentsIds
  deriving DecidableEq, Repr

/-- The snapshot visible through one read transaction: the two `main`
poly-database entries the claims touch (`headers`, `documents-ids`) and
the `documents` table mapping a document id to its CSV-line payload. -/
structure IndexState where
  headersEntry : Option (List Nat)
  documentsIdsEntry : Option (Finset Nat)
  docStore : Nat → Option (List Nat)

namespace Index

/-- Embeds `Index::headers`: read the raw header bytes stored under the
`headers` key of the `main` database, if any. -/
def headers (st : IndexState) : Option (List Nat) :=
  st.headersEntry

/-- Embeds `Index::put_headers`: store header bytes under the `headers`
key of the `main` database. -/
def put_headers (st : IndexState) (hs : List Nat) : IndexState :=
  { st with headersEntry := some hs }

/-- Models the external `csv` reader used by `number_of_attributes`:
the auxiliary scan over the bytes of the first CSV record, counting
fields.  `inQ` tracks whether the scanner is inside a double-quoted
field (byte 34); outside quotes a comma (44) starts a new field and a
line feed (10) ends the record. -/
def csvCountAux : List Nat → Bool → Nat → Nat
  | [], _, acc => acc
  | c :: rest, inQ, acc =>
    if inQ then
      if c = 34 then csvCountAux rest false acc else csvCountAux rest true acc
    else
      if c = 44 then csvCountAux rest false (acc + 1)
      else if c = 10 then acc
      else if c = 34 then csvCountAux rest true acc
      else csvCountAux rest false acc

/-- Models the external `csv` reader's `headers()` call: the number of
fields of the first CSV record of the given bytes (0 for empty input,
as the reader yields an empty header record there). -/
def csvFieldCount (bytes : List Nat) : Nat :=
  match bytes with
  | [] => 0
  | _ :: _ => csvCountAux bytes false 1

/-- Embeds `Index::number_of_attributes`: re-reads the stored header
bytes through `headers` and CSV-parses them on the spot; `none` when no
headers entry is stored.  No cached value is consulted: the result is a
function of the current snapshot alone. -/
def number_of_attributes (st : IndexState) : Except IndexError (Option Nat) :=
  match headers st with
  | some hs => .ok (some (csvFieldCount hs))
  | none => .ok none

/-- Embeds `Index::documents`: fold the requested ids left to right,
fetching each payload; the first id absent from the `documents` table
aborts the whole call with `documentNotFound`. -/
def documents (st : IndexState) : List Nat → Except IndexError (List (Nat × List Nat))
  | [] => .ok []
  | id :: rest =>
    match st.docStore id with
    | none => .error (.documentNotFound id)
    | some content =>
      match documents st rest with
      | .ok tail => .ok ((id, content) :: tail)
      | .error e => .error e

/-- Embeds `Index::number_of_documents`: read the `documents-ids`
compressed set from the `main` database, failing when the entry is
absent, and return its cardinality. -/
def number_of_documents (st : IndexState) : Except IndexError Nat :=
  match st.documentsIdsEntry with
  | some docids => .ok docids.card
  | none => .error .missingDocumentsIds

end Index

/-- A two-document store used to evaluate the schema accessors on
concrete inputs: documents 1 and 2 exist, everything else is absent. -/
def exState : IndexState :=
  { headersEntry := none
    documentsIdsEntry := none
    docStore := fun id =>
      if id = 1 then some [10] else if id = 2 then some [20] else none }

/-- C1: `Index::documents` returns `(id, payload)` pairs in exactly the
input order when every requested id is present, and fails with an error
identifying a missing id (no partial result) when any id is absent. -/
theorem documents_batch_fetch (st : IndexState) (ids : List Nat) :
    ((∀ id ∈ ids, (st.docStore id).isSome = true) →
      Index.documents st ids =
        .ok (ids.map (fun id => (id, (st.docStore id).getD [])))) ∧
    ((∃ id ∈ ids, st.docStore id = none) →
      ∃ m, m ∈ ids ∧ st.docStore m = none ∧
        Index.documents st ids = .error (.documentNotFound m)) := by
  induction ids with
  | nil =>
    refine ⟨fun _ => rfl, ?_⟩
    rintro ⟨id, hid, _⟩
    exact absurd hid (List.not_mem_nil id)
  | cons id rest ih =>
    constructor
    · intro hall
      have hid := hall id (List.mem_cons_self id rest)
      obtain ⟨content, hc⟩ := Option.isSome_iff_exists.mp hid
      have hrest := ih.1 (fun i hi => hall i (List.mem_cons_of_mem id hi))
      simp [Index.documents, hc, hrest]
    · rintro ⟨m, hm, hnone⟩
      rcases List.mem_cons.mp hm with hme | hmr
      · subst hme
        exact ⟨m, List.mem_cons_self m rest, hnone, by simp [Index.documents, hnone]⟩
      · cases hfirst : st.docStore id with
        | none =>
          exact ⟨id, List.mem_cons_self id rest, hfirst, by simp [Index.documents, hfirst]⟩
        | some content =>
          obtain ⟨m2, hm2, hn2, herr⟩ := ih.2 ⟨m, hmr, hnone⟩
          exact ⟨m2, List.mem_cons_of_mem id hm2, hn2, by simp [Index.documents, hfirst, herr]⟩

/-- Evaluates `documents_batch_fetch` on the concrete two-document
store: fetching ids `[1, 2]` succeeds in order. -/
theorem documents_batch_fetch_witness :
    (∀ id ∈ [1, 2], (exState.docStore id).isSome = true) ∧
    Index.documents exState [1, 2] =
      .ok ([1, 2].map (fun id => (id, (exState.docStore id).getD []))) :=
  ⟨by decide, (documents_batch_fetch exState [1, 2]).1 (by decide)⟩

/-- C9: `Index::number_of_attributes` returns `none` when no headers
entry is stored, otherwise `some` of the field count obtained by
CSV-parsing the stored bytes; and the value is recomputed from the
snapshot on every call — after `put_headers` writes new bytes, the
result reflects them whatever the previous state was (no cache). -/
theorem number_of_attributes_lazy (st : IndexState) :
    (st.headersEntry = none → Index.number_of_attributes st = .ok none) ∧
    (∀ hs, st.headersEntry = some hs →
      Index.number_of_attributes st = .ok (some (Index.csvFieldCount hs))) ∧
    (∀ hs, Index.number_of_attributes (Index.put_headers st hs) =
      .ok (some (Index.csvFieldCount hs))) := by
  refine ⟨fun h => ?_, fun hs h => ?_, fun hs => ?_⟩
  · simp [Index.number_of_attributes, Index.headers, h]
  · simp [Index.number_of_attributes, Index.headers, h]
  · simp [Index.number_of_attributes, Index.headers, Index.put_headers]

/-- Evaluates `number_of_attributes_lazy` on the concrete store, whose
headers entry is absent: the call returns `ok none`. -/
theorem number_of_attributes_lazy_witness :
    Index.number_of_attributes exState = .ok none :=
  (number_of_attributes_lazy exState).1 rfl

/-- C10: `Index::number_of_documents` fails (rather than returning 0)
when the `documents-ids` metadata entry is absent, and returns the
cardinality of the stored compressed set when it is present. -/
theorem number_of_documents_strict (st : IndexState) :
    (st.documentsIdsEntry = none →
      Index.number_of_documents st = .error .missingDocumentsIds) ∧
    (∀ s, st.documentsIdsEntry = some s →
      Index.number_of_documents st = .ok s.card) := by
  refine ⟨fun h => ?_, fun s h => ?_⟩
  · simp [Index.number_of_documents, h]
  · simp [Index.number_of_documents, h]

/-- Evaluates `number_of_documents_strict` on the concrete store, whose
`documents-ids` entry is absent: the call fails. -/
theorem number_of_documents_strict_witness :
    Index.number_of_documents exState = .error .missingDocumentsIds :=
  (number_of_documents_strict exState).1 rfl

/-- Modelled from the spec: the index build (not in the snapshot)
derives the `word-four-positions-docids` table from the
`word-position-docids` table — for each word and each bucket of width 4
(bucket index = position / 4), the set of document ids containing the
word anywhere in the bucket, i.e. the union of the exact-position sets
over the bucket's four positions. -/
def quantizeTable (exact : String → Nat → Finset Nat) (w : String) (b : Nat) : Finset Nat :=
  (Finset.range 4).biUnion (fun i => exact w (4 * b + i))

/-- C2: coarse-index soundness — in any consistent post-build state
(where the quantized table is the bucket-wise union of the exact table),
a document present at exact position `p` for word `w` is present in
bucket `p / 4` of the quantized table. -/
theorem word_four_positions_sound
    (exact quant : String → Nat → Finset Nat)
    (w : String) (p : Nat) (d : Nat)
    (hcons : ∀ w b, quant w b = quantizeTable exact w b)
    (hd : d ∈ exact w p) :
    d ∈ quant w (p / 4) := by
  rw [hcons]
  refine Finset.mem_biUnion.mpr ⟨p % 4, ?_, ?_⟩
  · exact Finset.mem_range.mpr (Nat.mod_lt _ (by omega))
  · have : 4 * (p / 4) + p % 4 = p := by omega
    rw [this]
    exact hd

/-- A concrete exact-position table: word "a" occurs at position 5 in
document 7 only. -/
def exWordPositionDocids : String → Nat → Finset Nat :=
  fun w p => if w = "a" ∧ p = 5 then {7} else ∅

/-- Evaluates `word_four_positions_sound` on the concrete table:
document 7 at exact position 5 for word "a" is in quantized bucket 1. -/
theorem word_four_positions_sound_witness :
    7 ∈ quantizeTable exWordPositionDocids "a" (5 / 4) :=
  word_four_positions_sound exWordPositionDocids (quantizeTable exWordPositionDocids)
    "a" 5 7 (fun _ _ => rfl) (by decide)

/-- Modelled from the spec: the Word Resolver (in the missing `search`
module) maps a normalized token to the ordered sequence of dictionary
words it may refer to.  A non-final token resolves to exactly itself
when present verbatim in the dictionary; a final token additionally
expands to every dictionary word having it as a byte prefix, capped. -/
def wordResolver (dict : List String) (token : String) (isFinal : Bool) (cap : Nat) :
    List String :=
  if isFinal then
    (dict.filter (fun w => token.isPrefixOf w)).take cap
  else
    if token ∈ dict then [token] else []

/-- C7: for a normalized token absent from the word dictionary, the
Word Resolver with `final = false` returns the empty sequence — a valid
result signalling zero matching documents, not an error. -/
theorem word_resolver_absent_empty (dict : List String) (token : String) (cap : Nat)
    (habs : token ∉ dict) :
    wordResolver dict token false cap = [] := by
  simp [wordResolver, habs]

/-- Evaluates `word_resolver_absent_empty` on a concrete dictionary:
"cat" is not in `["fox", "quick"]` and resolves to nothing. -/
theorem word_resolver_absent_empty_witness :
    "cat" ∉ ["fox", "quick"] ∧ wordResolver ["fox", "quick"] "cat" false 8 = [] :=
  ⟨by decide, word_resolver_absent_empty ["fox", "quick"] "cat" 8 (by decide)⟩

/-- Modelled from the spec: the Candidate Set Builder intersects the
per-token document sets across all tokens (a single token's set is
returned as is; the empty query never reaches the builder, the empty
list case is vacuous). -/
def intersectAll : List (Finset Nat) → Finset Nat
  | [] => ∅
  | [s] => s
  | s :: t :: rest => s ∩ intersectAll (t :: rest)

/-- Modelled from the spec: the relaxation policy drops the token whose
resolved-word union set has the largest cardinality; this picks the
index of the first set of maximal cardinality. -/
def argmaxCard (sets : List (Finset Nat)) : Nat :=
  (List.range sets.length).foldl
    (fun best i =>
      if (sets.getD best ∅).card < (sets.getD i ∅).card then i else best) 0

/-- Modelled from the spec: one relaxation round removes the
least-informative token's set from the per-token set list. -/
def relaxStep (sets : List (Finset Nat)) : List (Finset Nat) :=
  sets.eraseIdx (argmaxCard sets)

/-- Membership in `intersectAll` of a non-empty list is membership in
every listed set. -/
theorem mem_intersectAll (sets : List (Finset Nat)) (hne : sets ≠ []) (d : Nat) :
    d ∈ intersectAll sets ↔ ∀ s ∈ sets, d ∈ s := by
  induction sets with
  | nil => exact absurd rfl hne
  | cons s rest ih =>
    cases rest with
    | nil => simp [intersectAll]
    | cons t rest2 =>
      rw [intersectAll, Finset.mem_inter, ih (by simp)]
      simp_all

/-- Dropping any index from a list of at least two sets can only grow
the intersection. -/
theorem intersectAll_eraseIdx_superset (sets : List (Finset Nat)) (i : Nat)
    (hlen : 2 ≤ sets.length) :
    intersectAll sets ⊆ intersectAll (sets.eraseIdx i) := by
  intro d hd
  have hne : sets ≠ [] := by
    intro h; rw [h] at hlen; simp at hlen
  have hmem := (mem_intersectAll sets hne d).mp hd
  have hne2 : sets.eraseIdx i ≠ [] := List.eraseIdx_ne_nil.mpr (Or.inl hlen)
  refine (mem_intersectAll (sets.eraseIdx i) hne2 d).mpr ?_
  intro s hs
  exact hmem s (List.mem_of_mem_eraseIdx hs)

/-- C4: the Candidate Set Builder is monotonic under relaxation — for a
multi-token query, the candidate set after dropping the
largest-cardinality token's set is a superset of the intersection
computed before dropping it. -/
theorem candidate_set_relaxation_monotonic (sets : List (Finset Nat))
    (hlen : 2 ≤ sets.length) :
    intersectAll sets ⊆ intersectAll (relaxStep sets) :=
  intersectAll_eraseIdx_superset sets (argmaxCard sets) hlen

/-- Evaluates `candidate_set_relaxation_monotonic` on concrete
per-token sets: dropping the biggest set of `[{1,2,3}, {2}]` leaves
`{2}`, a superset of the intersection `{2}`. -/
theorem candidate_set_relaxation_monotonic_witness :
    2 ≤ ([{1, 2, 3}, {2}] : List (Finset Nat)).length ∧
    intersectAll [{1, 2, 3}, {2}] ⊆ intersectAll (relaxStep [{1, 2, 3}, {2}]) :=
  ⟨by decide, candidate_set_relaxation_monotonic [{1, 2, 3}, {2}] (by decide)⟩

/-- Modelled from the spec: a criterion stage of the pipeline is a pure
function bucketing its input candidate set by a per-document score (the
Words, Proximity, Attribute and Exactness stages all bucket by such a
score); the buckets are listed in score order, one bucket per score
value actually present in the input. -/
def bucketsBy (score : Nat → Nat) (c : Finset Nat) : List (Finset Nat) :=
  ((c.image score).sort (· ≤ ·)).map (fun s => c.filter (fun d => score d = s))

/-- Membership in the fold-union of a list of finsets is membership in
one of the listed finsets. -/
theorem mem_foldr_union (l : List (Finset Nat)) (d : Nat) :
    d ∈ l.foldr (· ∪ ·) ∅ ↔ ∃ b ∈ l, d ∈ b := by
  induction l with
  | nil => simp
  | cons b rest ih => simp [ih]

/-- C3: every criterion stage partitions its input exactly — the
ordered buckets it produces are pairwise disjoint and their union is
the input candidate set, so no document id is duplicated or dropped. -/
theorem criterion_buckets_partition (score : Nat → Nat) (c : Finset Nat) :
    List.Pairwise (fun b1 b2 => Disjoint b1 b2) (bucketsBy score c) ∧
    (bucketsBy score c).foldr (· ∪ ·) ∅ = c := by
  constructor
  · rw [bucketsBy, List.pairwise_map]
    refine List.Pairwise.imp ?_ (Finset.sort_nodup (· ≤ ·) (c.image score))
    intro s t hst
    rw [Finset.disjoint_left]
    intro d hd1 hd2
    rw [Finset.mem_filter] at hd1 hd2
    exact hst (hd1.2.symm.trans hd2.2)
  · ext d
    rw [mem_foldr_union]
    constructor
    · rintro ⟨b, hb, hdb⟩
      rw [bucketsBy, List.mem_map] at hb
      obtain ⟨s, _, rfl⟩ := hb
      exact (Finset.mem_filter.mp hdb).1
    · intro hd
      refine ⟨c.filter (fun x => score x = score d), ?_, ?_⟩
      · rw [bucketsBy, List.mem_map]
        exact ⟨score d, (Finset.mem_sort _).mpr (Finset.mem_image_of_mem score hd), rfl⟩
      · exact Finset.mem_filter.mpr ⟨hd, rfl⟩

/-- Modelled from the spec: the full ranking emitted by the pipeline —
the terminal buckets in rank order, each bucket flattened with the
stable tie-break of ascending document id applied at emission time. -/
def rankingOf (buckets : List (Finset Nat)) : List Nat :=
  (buckets.map (fun b => b.sort (· ≤ ·))).flatten

/-- Modelled from the spec: one paginated search call over a fixed
snapshot returns the window [offset, offset + limit) of the full
ranking. -/
def searchPage (buckets : List (Finset Nat)) (offset limit : Nat) : List Nat :=
  ((rankingOf buckets).drop offset).take limit

/-- C5: pagination stability — for a fixed snapshot whose terminal
buckets are pairwise disjoint (as every criterion stage guarantees),
the pages `offset = 0, limit = 10` and `offset = 10, limit = 10` are
disjoint and concatenate to the first 20 entries of the single full
ranking.  Determinism across calls is structural here: `searchPage` is
a pure function of the snapshot and the pagination window. -/
theorem pagination_stable (buckets : List (Finset Nat))
    (hdisj : List.Pairwise (fun b1 b2 => Disjoint b1 b2) buckets) :
    searchPage buckets 0 10 ++ searchPage buckets 10 10 = (rankingOf buckets).take 20 ∧
    List.Disjoint (searchPage buckets 0 10) (searchPage buckets 10 10) := by
  have hnodup : (rankingOf buckets).Nodup := by
    rw [rankingOf, List.nodup_flatten]
    constructor
    · intro l hl
      rw [List.mem_map] at hl
      obtain ⟨b, _, rfl⟩ := hl
      exact Finset.sort_nodup _ b
    · rw [List.pairwise_map]
      refine hdisj.imp ?_
      intro b1 b2 h d hd1 hd2
      rw [Finset.mem_sort] at hd1 hd2
      exact (Finset.disjoint_left.mp h hd1) hd2
  constructor
  · show ((rankingOf buckets).drop 0).take 10 ++ ((rankingOf buckets).drop 10).take 10 =
      (rankingOf buckets).take 20
    rw [List.drop_zero]
    exact (List.take_add (rankingOf buckets) 10 10).symm
  · have h2 : List.Disjoint ((rankingOf buckets).take 10) ((rankingOf buckets).drop 10) := by
      apply List.disjoint_of_nodup_append
      rw [List.take_append_drop]
      exact hnodup
    intro a ha hb
    rw [searchPage, List.drop_zero] at ha
    rw [searchPage] at hb
    exact h2 ha (List.take_subset _ _ hb)

/-- Evaluates `pagination_stable` on two concrete disjoint buckets:
the two pages of `[{3, 1}, {2}]` are concatenation-consistent and
disjoint. -/
theorem pagination_stable_witness :
    searchPage [{3, 1}, {2}] 0 10 ++ searchPage [{3, 1}, {2}] 10 10 =
      (rankingOf [{3, 1}, {2}]).take 20 ∧
    List.Disjoint (searchPage [{3, 1}, {2}] 0 10) (searchPage [{3, 1}, {2}] 10 10) :=
  pagination_stable [{3, 1}, {2}] (by decide)

/-- Modelled from the spec: the Proximity Engine's minimal positional
distance for one document and one ordered pair of surviving query
words.  Occurrence positions are (attribute, offset) pairs; every
same-attribute occurrence pair contributes the absolute offset
difference, the whole value is clamped to the documented maximum
per-pair distance `maxDist`, and a pair of words with no common
attribute yields `maxDist` ("no meaningful proximity"). -/
def pairDistance (maxDist : Nat) (pa pb : Finset (Nat × Nat)) : Nat :=
  Finset.fold min maxDist
    (fun q => max q.1.2 q.2.2 - min q.1.2 q.2.2)
    ((pa ×ˢ pb).filter (fun q => q.1.1 = q.2.1))

/-- One direction of the symmetry of `pairDistance`: swapping the two
words' occurrence sets cannot decrease the minimal distance. -/
theorem pairDistance_le (m : Nat) (pa pb : Finset (Nat × Nat)) :
    pairDistance m pa pb ≤ pairDistance m pb pa := by
  unfold pairDistance
  refine (Finset.le_fold_min _).mpr ⟨?_, ?_⟩
  · exact (Finset.fold_min_le _).mpr (Or.inl le_rfl)
  · intro x hx
    rw [Finset.mem_filter, Finset.mem_product] at hx
    obtain ⟨⟨hx1, hx2⟩, hattr⟩ := hx
    apply (Finset.fold_min_le _).mpr
    refine Or.inr ⟨(x.2, x.1), ?_, ?_⟩
    · rw [Finset.mem_filter, Finset.mem_product]
      exact ⟨⟨hx2, hx1⟩, hattr.symm⟩
    · exact le_of_eq (by rw [Nat.max_comm, Nat.min_comm])

/-- C6: the Proximity Engine's minimal positional distance is symmetric
under swapping the word pair (in particular on same-attribute
occurrences), and equals the documented maximum per-pair distance when
the two words' occurrences lie only in different attributes. -/
theorem proximity_symm_and_cross_attribute (m : Nat) (pa pb : Finset (Nat × Nat)) :
    pairDistance m pa pb = pairDistance m pb pa ∧
    ((∀ qa ∈ pa, ∀ qb ∈ pb, qa.1 ≠ qb.1) → pairDistance m pa pb = m) := by
  constructor
  · exact le_antisymm (pairDistance_le m pa pb) (pairDistance_le m pb pa)
  · intro hcross
    rw [pairDistance]
    have hempty : (pa ×ˢ pb).filter (fun q => q.1.1 = q.2.1) = ∅ := by
      rw [Finset.filter_eq_empty_iff]
      intro q hq
      rw [Finset.mem_product] at hq
      exact hcross q.1 hq.1 q.2 hq.2
    rw [hempty, Finset.fold_empty]

/-- Evaluates `proximity_symm_and_cross_attribute` on concrete
occurrence sets lying in different attributes: the distance is
symmetric and equals the maximum 8. -/
theorem proximity_symm_and_cross_attribute_witness :
    pairDistance 8 {(0, 1)} {(1, 5)} = pairDistance 8 {(1, 5)} {(0, 1)} ∧
    pairDistance 8 {(0, 1)} {(1, 5)} = 8 :=
  ⟨(proximity_symm_and_cross_attribute 8 {(0, 1)} {(1, 5)}).1,
   (proximity_symm_and_cross_attribute 8 {(0, 1)} {(1, 5)}).2 (by decide)⟩

/-- Modelled from the spec: `StrBEU32Codec` (declared in `lib.rs`,
defined in the missing `heed_codec` module) encodes the u32 component
of a composite key as its 4-byte big-endian representation. -/
def beU32Bytes (n : Nat) : List Nat :=
  [n / 16777216 % 256, n / 65536 % 256, n / 256 % 256, n % 256]

/-- Modelled from the spec: `StrBEU32Codec` encodes a composite
(word, u32) key as the word's bytes followed by the integer's big-endian
bytes. -/
def strBEU32Encode (word : List Nat) (n : Nat) : List Nat :=
  word ++ beU32Bytes n

/-- Strict lexicographic order on byte strings — the order in which the
storage engine iterates keys. -/
def bytesLt : List Nat → List Nat → Bool
  | [], [] => false
  | [], _ :: _ => true
  | _ :: _, [] => false
  | a :: as, b :: bs =>
    if a < b then true else if b < a then false else bytesLt as bs

/-- The (word ascending, integer ascending) order on composite keys
that the spec says the byte order realizes. -/
def pairLt (w1 : List Nat) (n1 : Nat) (w2 : List Nat) (n2 : Nat) : Bool :=
  bytesLt w1 w2 || (decide (w1 = w2) && decide (n1 < n2))

/-- Byte-string prefix test. -/
def isPre : List Nat → List Nat → Bool
  | [], _ => true
  | _ :: _, [] => false
  | a :: as, b :: bs => a == b && isPre as bs

/-- Every byte string is a prefix of itself. -/
theorem isPre_refl (w : List Nat) : isPre w w = true := by
  induction w with
  | nil => rfl
  | cons a as ih => simp [isPre, ih]

/-- Lexicographic comparison drops a common prefix. -/
theorem bytesLt_append_same (w s1 s2 : List Nat) :
    bytesLt (w ++ s1) (w ++ s2) = bytesLt s1 s2 := by
  induction w with
  | nil => rfl
  | cons a as ih => simp [bytesLt, ih]

/-- Lexicographic comparison is irreflexive. -/
theorem bytesLt_irrefl (w : List Nat) : bytesLt w w = false := by
  have h := bytesLt_append_same w [] []
  simpa using h

/-- Big-endian byte comparison of two u32 values matches numeric
comparison. -/
theorem beU32Bytes_lt (n1 n2 : Nat) (h1 : n1 < 4294967296) (h2 : n2 < 4294967296) :
    (bytesLt (beU32Bytes n1) (beU32Bytes n2) = true ↔ n1 < n2) := by
  simp only [beU32Bytes, bytesLt]
  split_ifs <;> simp_all <;> omega

/-- When neither word is a byte prefix of the other, the words differ
before either suffix is reached, so suffixes cannot influence the
comparison. -/
theorem bytesLt_append_of_no_pre :
    ∀ (w1 w2 s1 s2 : List Nat), isPre w1 w2 = false → isPre w2 w1 = false →
      bytesLt (w1 ++ s1) (w2 ++ s2) = bytesLt w1 w2
  | [], w2, _, _, hp, _ => by simp [isPre] at hp
  | _ :: _, [], _, _, _, hq => by simp [isPre] at hq
  | a :: as, b :: bs, s1, s2, hp, hq => by
    simp only [List.cons_append, bytesLt]
    by_cases hab : a < b
    · simp [hab]
    · by_cases hba : b < a
      · simp [hab, hba]
      · have hae : a = b := Nat.le_antisymm (Nat.not_lt.mp hba) (Nat.not_lt.mp hab)
        subst hae
        simp only [isPre, beq_self_eq_true, Bool.true_and] at hp hq
        simp [hab, hba, bytesLt_append_of_no_pre as bs s1 s2 hp hq]

/-- C8 (counterexample): the codec's byte order does not equal the
(word ascending, integer ascending) order when one word is a proper
prefix of the other — the key ("a", 0x63000000) precedes ("ab", 0) in
pair order, yet its encoding follows the other's in byte order. -/
theorem strBEU32_order_counterexample :
    pairLt [97] 1660944384 [97, 98] 0 = true ∧
    bytesLt (strBEU32Encode [97] 1660944384) (strBEU32Encode [97, 98] 0) = false := by
  constructor
  · decide
  · decide

/-- C8 (amended): for any two composite keys whose words are equal, or
whose words are such that neither is a byte prefix of the other, the
lexicographic order of the encoded byte strings coincides with the
(word ascending, integer ascending) order of the keys. -/
theorem strBEU32_order_amended (w1 w2 : List Nat) (n1 n2 : Nat)
    (h1 : n1 < 4294967296) (h2 : n2 < 4294967296)
    (hw : w1 = w2 ∨ (isPre w1 w2 = false ∧ isPre w2 w1 = false)) :
    (bytesLt (strBEU32Encode w1 n1) (strBEU32Encode w2 n2) = true ↔
      pairLt w1 n1 w2 n2 = true) := by
  rcases hw with heq | ⟨hp, hq⟩
  · subst heq
    rw [strBEU32Encode, strBEU32Encode, bytesLt_append_same,
      beU32Bytes_lt n1 n2 h1 h2, pairLt, bytesLt_irrefl]
    simp
  · have hne : w1 ≠ w2 := by
      intro h
      subst h
      rw [isPre_refl] at hp
      exact absurd hp (by simp)
    rw [strBEU32Encode, strBEU32Encode, bytesLt_append_of_no_pre w1 w2 _ _ hp hq,
      pairLt]
    simp [hne]

/-- Evaluates `strBEU32_order_amended` on two concrete keys with
non-overlapping words: ("a", 5) versus ("b", 7). -/
theorem strBEU32_order_amended_witness :
    (bytesLt (strBEU32Encode [97] 5) (strBEU32Encode [98] 7) = true ↔
      pairLt [97] 5 [98] 7 = true) :=
  strBEU32_order_amended [97] [98] 5 7 (by decide) (by decide) (Or.inr (by decide))
